import Mathlib

namespace FayCite

/-!
Shallow embedding of the FayCite citation pipeline
(src/citation_formatter.py, src/pdf_library.py, src/bibliography_parser.py,
src/citation_processor.py).

Conventions: Python strings are modelled as `String` / `List Char`; Python
dicts with a fixed key set are structures whose absent keys are empty
strings or lists; Python `None` results are `Option`; regex operations are
embedded either through a small derivative-based matcher (for the boolean
validators) or through direct scanners that mirror the specific pattern's
greedy/backtracking semantics (for extractions with capture groups).
-/

/-- Python whitespace: the characters accepted by `str.strip()`, `str.split()`
and the regex class `\s` on ASCII text. -/
def isPyWs (c : Char) : Bool :=
  c = ' ' || c = '\t' || c = '\n' || c = '\r' || c = '\x0b' || c = '\x0c'

def mkStr (l : List Char) : String := String.mk l

/-- Python `str.strip()`. -/
def pyStripL (l : List Char) : List Char :=
  ((l.dropWhile isPyWs).reverse.dropWhile isPyWs).reverse

def pyStrip (s : String) : String := mkStr (pyStripL s.toList)

/-- Python `str.split()` (no argument): split on whitespace runs, dropping
empty fragments.  `cur` accumulates the current word in reverse. -/
def pySplitWsAux (cur : List Char) : List Char → List (List Char)
  | [] => if cur.isEmpty then [] else [cur.reverse]
  | c :: rest =>
    if isPyWs c then
      if cur.isEmpty then pySplitWsAux [] rest
      else cur.reverse :: pySplitWsAux [] rest
    else pySplitWsAux (c :: cur) rest

def pySplitWs (s : String) : List String := (pySplitWsAux [] s.toList).map mkStr

/-- Index of the first occurrence of `pat` in `l` (Python `str.find` /
the scan step of `re.search`). -/
def findSubIdx (pat : List Char) : List Char → Option Nat
  | [] => if pat.isEmpty then some 0 else none
  | c :: rest =>
    if pat.isPrefixOf (c :: rest) then some 0
    else (findSubIdx pat rest).map (· + 1)

/-- Python `pat in s` (substring containment). -/
def containsSubL (pat l : List Char) : Bool := (findSubIdx pat l).isSome

def containsSub (pat s : String) : Bool := containsSubL pat.toList s.toList

/-- Python `str.split(sep)` for a non-empty separator, fuel-bounded so the
definition is structural and kernel-evaluable. -/
def splitSepFuel (sep : List Char) : Nat → List Char → List (List Char)
  | 0, l => [l]
  | fuel + 1, l =>
    match findSubIdx sep l with
    | none => [l]
    | some i => l.take i :: splitSepFuel sep fuel (l.drop (i + sep.length))

def splitSepL (sep l : List Char) : List (List Char) :=
  splitSepFuel sep (l.length + 1) l

/-- Python `str.replace(pat, repl)` (all non-overlapping occurrences,
left to right), fuel-bounded. -/
def replaceSubFuel (pat repl : List Char) : Nat → List Char → List Char
  | 0, l => l
  | _ + 1, [] => []
  | fuel + 1, c :: rest =>
    if pat ≠ [] ∧ pat.isPrefixOf (c :: rest) then
      repl ++ replaceSubFuel pat repl fuel ((c :: rest).drop pat.length)
    else c :: replaceSubFuel pat repl fuel rest

def replaceSubL (pat repl l : List Char) : List Char :=
  replaceSubFuel pat repl l.length l

def replaceSub (pat repl s : String) : String :=
  mkStr (replaceSubL pat.toList repl.toList s.toList)

def toLowerL (l : List Char) : List Char := l.map Char.toLower

def natOfDigits (l : List Char) : Nat :=
  l.foldl (fun n c => n * 10 + (c.toNat - 48)) 0

/-- Python `int(s)` on an optionally signed decimal string (surrounding
whitespace tolerated, as `int` does); `none` models `ValueError`. -/
def pyIntL (l : List Char) : Option Int :=
  match pyStripL l with
  | '-' :: ds => if ds ≠ [] ∧ ds.all Char.isDigit then some (-(natOfDigits ds : Int)) else none
  | '+' :: ds => if ds ≠ [] ∧ ds.all Char.isDigit then some (natOfDigits ds : Int) else none
  | ds => if ds ≠ [] ∧ ds.all Char.isDigit then some (natOfDigits ds : Int) else none

/-- `", ".join(parts)` and friends. -/
def joinSep (sep : String) : List String → String
  | [] => ""
  | [a] => a
  | a :: rest => a ++ sep ++ joinSep sep rest

/-- All non-overlapping matches of `re.findall(r'(\d{4})', s)`: scan left to
right, emit each run of four consecutive digits and continue after it. -/
def findFourRuns : List Char → List (List Char)
  | c1 :: c2 :: c3 :: c4 :: rest =>
    if c1.isDigit && c2.isDigit && c3.isDigit && c4.isDigit then
      [c1, c2, c3, c4] :: findFourRuns rest
    else
      findFourRuns (c2 :: c3 :: c4 :: rest)
  | _ => []

/-- `re.search(r'(\d{4})', s)`: the first four-consecutive-digit run. -/
def firstFourRun (l : List Char) : Option (List Char) := (findFourRuns l).head?

/-! ## IEEE in-text numbering (`CitationFormatter._format_ieee_in_text`,
`reset_state`, src/citation_formatter.py lines 39-47 and 286-298). -/

/-- `_citation_counter` and the insertion-ordered `_citation_map`. -/
structure IeeeState where
  counter : Nat
  assigned : List (String × Nat)

/-- Lookup in the citation map (`self._citation_map[filename]` /
`filename in self._citation_map`). -/
def lookupNum (m : List (String × Nat)) (f : String) : Option Nat :=
  match m with
  | [] => none
  | (g, n) :: t => if g = f then some n else lookupNum t f

/-- Fresh formatter state (`__init__`). -/
def initIeee : IeeeState := ⟨0, []⟩

/-- `reset_state`: clears the counter and the map. -/
def resetState (_ : IeeeState) : IeeeState := ⟨0, []⟩

/-- The numbering step of `_format_ieee_in_text`: assign the next number on
first citation, reuse the stored number afterwards. -/
def ieeeInTextStep (st : IeeeState) (filename : String) : IeeeState × Nat :=
  match lookupNum st.assigned filename with
  | some n => (st, n)
  | none =>
    let c := st.counter + 1
    (⟨c, st.assigned ++ [(filename, c)]⟩, c)

/-- `_format_ieee_in_text` including the rendered bracket text. -/
def formatIeeeInText (st : IeeeState) (filename : String) (page : Option String) :
    IeeeState × String :=
  let (st', n) := ieeeInTextStep st filename
  match page with
  | some p => (st', "[" ++ toString n ++ ", p. " ++ p ++ "]")
  | none => (st', "[" ++ toString n ++ "]")

/-- Run a sequence of IEEE in-text citations through the formatter state. -/
def citeAll (st : IeeeState) : List String → IeeeState
  | [] => st
  | f :: fs => citeAll (ieeeInTextStep st f).1 fs

/-- The distinct filenames of a citation sequence in order of first
occurrence, continuing a prior `seen` list. -/
def firstOccAux (seen : List String) : List String → List String
  | [] => seen
  | f :: fs =>
    if f ∈ seen then firstOccAux seen fs
    else firstOccAux (seen ++ [f]) fs

def firstOcc (fs : List String) : List String := firstOccAux [] fs

/-- Index of the first occurrence of `f` in `l` (0 when absent or at head). -/
def idxOf (l : List String) (f : String) : Nat :=
  match l with
  | [] => 0
  | a :: t => if a = f then 0 else idxOf t f + 1

/-- The citation map that assigns `k + i + 1` to the `i`-th name. -/
def mapFrom (k : Nat) : List String → List (String × Nat)
  | [] => []
  | f :: t => (f, k + 1) :: mapFrom (k + 1) t

/-! ## Regex matcher for the style validators

The four `_validate_*_format` methods only test whether `re.match(pattern,
citation)` succeeds, so a boolean prefix matcher suffices.  We embed the
patterns in a derivative-based engine: `reAccepts r l` decides whether some
prefix of `l` is in the language of `r`, which is exactly `re.match`
(unanchored at the end). -/

inductive RE where
  | eps : RE
  | cls : (Char → Bool) → RE
  | cat : RE → RE → RE
  | alt : RE → RE → RE
  | star : RE → RE

def RE.nullable : RE → Bool
  | .eps => true
  | .cls _ => false
  | .cat a b => a.nullable && b.nullable
  | .alt a b => a.nullable || b.nullable
  | .star _ => true

def RE.deriv : RE → Char → RE
  | .eps, _ => .cls (fun _ => false)
  | .cls p, c => if p c then .eps else .cls (fun _ => false)
  | .cat a b, c =>
    if a.nullable then .alt (.cat (a.deriv c) b) (b.deriv c)
    else .cat (a.deriv c) b
  | .alt a b, c => .alt (a.deriv c) (b.deriv c)
  | .star a, c => .cat (a.deriv c) (.star a)

/-- `re.match`: does some prefix of `l` belong to the language of `r`? -/
def reAccepts (r : RE) : List Char → Bool
  | [] => r.nullable
  | c :: rest => r.nullable || reAccepts (r.deriv c) rest

def reLit (c : Char) : RE := .cls (· = c)

def reSeq : List RE → RE
  | [] => .eps
  | [r] => r
  | r :: rest => .cat r (reSeq rest)

def reStr (s : String) : RE := reSeq (s.toList.map reLit)

/-- Python `.` (any character except a newline). -/
def reDot : RE := .cls (· ≠ '\n')

def rePlus (r : RE) : RE := .cat r (.star r)

def reDigit : RE := .cls Char.isDigit

def reWs : RE := .cls isPyWs

/-- `\d{4}` -/
def reYear4 : RE := reSeq [reDigit, reDigit, reDigit, reDigit]

/-- `.+` / `.*` / `\s*` / `\s+` / `\d+` -/
def reDotPlus : RE := rePlus reDot
def reDotStar : RE := .star reDot
def reWsStar : RE := .star reWs
def reWsPlus : RE := rePlus reWs
def reDigitPlus : RE := rePlus reDigit

/-- `_validate_apa_format`: the four APA patterns, `re.match` semantics. -/
def validateApaFormat (s : String) : Bool :=
  let patterns : List RE :=
    [ reSeq [reDotPlus, reWsStar, reLit '(', reYear4, reLit ')', reLit '.', reDotStar]
    , reSeq [reDotPlus, reWsStar, reStr "(n.d.).", reDotStar]
    , reSeq [reLit '(', reDotPlus, reLit ',', reWsStar, reYear4, reLit ')']
    , reSeq [reLit '(', reDotPlus, reLit ',', reWsStar, reStr "n.d.)"] ]
  patterns.any (fun r => reAccepts r s.toList)

/-- `_validate_mla_format`. -/
def validateMlaFormat (s : String) : Bool :=
  let patterns : List RE :=
    [ reSeq [reDotPlus, reLit '.', reWsStar, reLit '"', reDotPlus, reLit '"',
             reWsStar, reYear4, reLit '.', reDotStar]
    , reSeq [reLit '(', reDotPlus, reWsPlus, reDigitPlus, reLit ')'] ]
  patterns.any (fun r => reAccepts r s.toList)

/-- `_validate_chicago_format`. -/
def validateChicagoFormat (s : String) : Bool :=
  let patterns : List RE :=
    [ reSeq [reDotPlus, reLit '.', reWsStar, reYear4, reLit '.', reWsStar,
             reLit '"', reDotPlus, reLit '"', reLit '.', reDotStar]
    , reSeq [reLit '(', reDotPlus, reWsPlus, reYear4, reLit ')'] ]
  patterns.any (fun r => reAccepts r s.toList)

/-- `_validate_ieee_format`. -/
def validateIeeeFormat (s : String) : Bool :=
  let patterns : List RE :=
    [ reSeq [reLit '[', reDigitPlus, reLit ']']
    , reSeq [reDotPlus, reLit ',', reWsStar, reLit '"', reDotPlus, reLit '"', reDotStar] ]
  patterns.any (fun r => reAccepts r s.toList)

/-! ## Citation formatter field extraction (src/citation_formatter.py) -/

inductive CitationStyle where
  | APA | MLA | Chicago | IEEE
deriving DecidableEq

/-- The metadata dictionary consumed by the formatter; keys the pipeline
initializes are modelled as always-present fields defaulting to empty. -/
structure FMeta where
  title : String := ""
  authors : List String := []
  author : String := ""
  year : String := ""
  creation_date : String := ""
  journal : String := ""
  subject : String := ""
  volume : String := ""
  issue : String := ""
  pagesField : String := ""
  publisher : String := ""
  doi : String := ""
  url : String := ""

/-- `metadata.get('journal', metadata.get('subject', ''))`: in every pipeline
record the `journal` key is initialized, so an empty `journal` stands for the
absent key and falls back to `subject`. -/
def metaJournal (m : FMeta) : String :=
  if m.journal = "" then m.subject else m.journal

/-- Characters of the regex class `[A-Za-z\s]`. -/
def isAlphaSpace (c : Char) : Bool := c.isAlpha || isPyWs c

/-- `re.search(r'^([A-Za-z\s]+)\s*\(\d{4}\)', s)`: the class is greedy and
cannot contain `(`, so the parenthesis must sit right after the maximal
alpha-space prefix; the captured group is that prefix. -/
def filenameAuthor1 (l : List Char) : Option (List Char) :=
  let p := l.takeWhile isAlphaSpace
  if p.isEmpty then none
  else
    match l.drop p.length with
    | '(' :: c1 :: c2 :: c3 :: c4 :: ')' :: _ =>
      if c1.isDigit && c2.isDigit && c3.isDigit && c4.isDigit then some p else none
    | _ => none

/-- `re.search(r'^([A-Za-z\s]+)\s*-', s)` and `r'^([A-Za-z\s]+)\s*_'`:
same forced-position argument with a single separator character. -/
def filenameAuthorSep (sep : Char) (l : List Char) : Option (List Char) :=
  let p := l.takeWhile isAlphaSpace
  if p.isEmpty then none
  else
    match l.drop p.length with
    | c :: _ => if c = sep then some p else none
    | [] => none

/-- `_extract_author` (src/citation_formatter.py lines 584-649). -/
def extractAuthor (style : CitationStyle) (m : FMeta) (filename : String)
    (shortForm : Bool) : String :=
  if m.authors ≠ [] then
    if shortForm ∧ style = .IEEE then joinSep ", " m.authors
    else if shortForm ∧ (pySplitWs (m.authors.headD "")) ≠ [] then
      (pySplitWs (m.authors.headD "")).getLastD ""
    else
      match m.authors with
      | [a] => a
      | [a, b] => a ++ " and " ++ b
      | a :: _ => a ++ " et al."
      | [] => ""
  else
    let author := pyStrip m.author
    if author ≠ "" then
      if shortForm ∧ style ≠ .IEEE ∧ (pySplitWs author) ≠ [] then
        (pySplitWs author).getLastD ""
      else author
    else
      let fc := (replaceSub ".pdf" "" filename).toList
      let hit :=
        match filenameAuthor1 fc with
        | some p => some p
        | none =>
          match filenameAuthorSep '-' fc with
          | some p => some p
          | none => filenameAuthorSep '_' fc
      match hit with
      | some p =>
        let a := mkStr (pyStripL p)
        if shortForm ∧ style ≠ .IEEE ∧ (pySplitWs a) ≠ [] then
          (pySplitWs a).getLastD ""
        else a
      | none => ""

/-- `_extract_year` (lines 651-688): metadata year validated against
`1900..current_year`, then the creation date's first 4-digit token, then the
first valid 4-digit token of the filename. -/
def extractYear (currentYear : Nat) (m : FMeta) (filename : String) : Option String :=
  let y := pyStrip m.year
  let fromMeta : Option String :=
    if y ≠ "" then
      match pyIntL y.toList with
      | some v => if 1900 ≤ v ∧ v ≤ (currentYear : Int) then some (toString v) else none
      | none => none
    else none
  match fromMeta with
  | some r => some r
  | none =>
    let fromDate : Option String :=
      if m.creation_date ≠ "" then
        match firstFourRun m.creation_date.toList with
        | some r =>
          let v := natOfDigits r
          if 1900 ≤ v ∧ v ≤ currentYear then some (toString v) else none
        | none => none
      else none
    match fromDate with
    | some r => some r
    | none =>
      ((findFourRuns filename.toList).find?
        (fun r => decide (1900 ≤ natOfDigits r ∧ natOfDigits r ≤ currentYear))).map mkStr

/-- `re.sub(r'\(\d{4}\)', '', s)`: delete every `(dddd)` occurrence. -/
def removeParenYears : List Char → List Char
  | '(' :: c1 :: c2 :: c3 :: c4 :: ')' :: rest =>
    if c1.isDigit && c2.isDigit && c3.isDigit && c4.isDigit then
      removeParenYears rest
    else
      '(' :: removeParenYears (c1 :: c2 :: c3 :: c4 :: ')' :: rest)
  | c :: rest => c :: removeParenYears rest
  | [] => []

/-- `re.sub(r'^[A-Za-z\s]+-', '', s)` (resp. `_`): the separator cannot be an
alpha-space character, so it must follow the maximal prefix; when the pattern
matches, the prefix plus separator is removed. -/
def stripAuthorSep (sep : Char) (l : List Char) : List Char :=
  let p := l.takeWhile isAlphaSpace
  if p.isEmpty then l
  else
    match l.drop p.length with
    | c :: rest => if c = sep then rest else l
    | [] => l

/-- `' '.join(title.split())`. -/
def normSpaces (s : String) : String := joinSep " " (pySplitWs s)

/-- `_extract_title` (lines 690-722). -/
def extractTitle (m : FMeta) (filename : String) : String :=
  let t0 := pyStrip m.title
  if t0 ≠ "" then t0
  else
    let t1 := (replaceSub ".pdf" "" filename).toList
    let t2 := removeParenYears t1
    let t3 := stripAuthorSep '-' t2
    let t4 := stripAuthorSep '_' t3
    let t5 := replaceSubL ['-'] [' '] (replaceSubL ['_'] [' '] t4)
    let t6 := normSpaces (mkStr t5)
    if t6 ≠ "" then pyStrip t6 else "Untitled Document"

/-! ## Per-style single-citation grammars (lines 193-243) -/

/-- Python `str.startswith`. -/
def pyStartsWith (pre s : String) : Bool := pre.toList.isPrefixOf s.toList

/-- `f'"{title}"' if not title.startswith('"') else title` -/
def quoteTitle (title : String) : String :=
  if pyStartsWith "\"" title then title else "\"" ++ title ++ "\""

def formatApaCitation (author : String) (year : Option String) (title : String) : String :=
  match year with
  | some y => if author ≠ "" then author ++ " (" ++ y ++ "). " ++ title ++ "."
              else title ++ " (" ++ y ++ ")."
  | none => if author ≠ "" then author ++ " (n.d.). " ++ title ++ "."
            else title ++ " (n.d.)."

def formatMlaCitation (author : String) (year : Option String) (title : String) : String :=
  let ft := quoteTitle title
  if author ≠ "" then
    match year with
    | some y => author ++ ". " ++ ft ++ " " ++ y ++ "."
    | none => author ++ ". " ++ ft
  else
    match year with
    | some y => ft ++ " " ++ y ++ "."
    | none => ft

def formatChicagoCitation (author : String) (year : Option String) (title : String) : String :=
  match year with
  | some y => if author ≠ "" then author ++ ". " ++ y ++ ". \"" ++ title ++ "\"."
              else "\"" ++ title ++ "\". " ++ y ++ "."
  | none => if author ≠ "" then author ++ ". n.d. \"" ++ title ++ "\"."
            else "\"" ++ title ++ "\". n.d."

def formatIeeeCitation (author : String) (year : Option String) (title : String) : String :=
  let ft := quoteTitle title
  if author ≠ "" then
    match year with
    | some y => author ++ ", " ++ ft ++ " " ++ y ++ "."
    | none => author ++ ", " ++ ft
  else
    match year with
    | some y => ft ++ " " ++ y ++ "."
    | none => ft

/-- `source_info`: filename plus metadata dictionary. -/
structure SourceInfo where
  filename : String := ""
  metadata : FMeta := {}

/-- `format_citation` (lines 49-83), the non-exceptional path. -/
def formatCitation (currentYear : Nat) (style : CitationStyle) (si : SourceInfo) : String :=
  let author := extractAuthor style si.metadata si.filename false
  let year := extractYear currentYear si.metadata si.filename
  let title := extractTitle si.metadata si.filename
  match style with
  | .APA => formatApaCitation author year title
  | .MLA => formatMlaCitation author year title
  | .Chicago => formatChicagoCitation author year title
  | .IEEE => formatIeeeCitation author year title

/-- `validate_citation_format` (lines 724-747). -/
def validateCitationFormat (style : CitationStyle) (citation : String) : Bool :=
  match style with
  | .APA => validateApaFormat citation
  | .MLA => validateMlaFormat citation
  | .Chicago => validateChicagoFormat citation
  | .IEEE => validateIeeeFormat citation

/-- Round trip of C2: format then validate under the same style. -/
def roundTrip (currentYear : Nat) (style : CitationStyle) (si : SourceInfo) : Bool :=
  validateCitationFormat style (formatCitation currentYear style si)

/-- The four author/year presence combinations used to exercise C2. -/
def siAY : SourceInfo := { metadata := { author := "Smith", title := "Sample Title", year := "2020" } }
def siAonly : SourceInfo := { metadata := { author := "Smith", title := "Sample Title" } }
def siYonly : SourceInfo := { metadata := { title := "Sample Title", year := "2020" } }
def siNone : SourceInfo := { metadata := { title := "Sample Title" } }

/-! ## Full references and the IEEE reference list
(src/citation_formatter.py lines 119-191, 300-389, 514-573) -/

/-- `_format_apa_full_reference`. -/
def formatApaFullReference (author : String) (year : Option String) (title : String)
    (m : FMeta) : Option String :=
  if title = "" then none
  else
    let journal := metaJournal m
    let head :=
      match year with
      | some y => if author ≠ "" then [author ++ " (" ++ y ++ ")."]
                  else [title ++ " (" ++ y ++ ")."]
      | none => if author ≠ "" then [author ++ " (n.d.)."]
                else [title ++ " (n.d.)."]
    if author = "" ∧ year = none then some (joinSep " " head)
    else
      let parts1 := if author ≠ "" then head ++ [title ++ "."] else head
      let parts2 :=
        if journal ≠ "" then
          let jp0 := "*" ++ journal ++ "*"
          let jp1 :=
            if m.volume ≠ "" ∧ m.issue ≠ "" then jp0 ++ ", " ++ m.volume ++ "(" ++ m.issue ++ ")"
            else if m.volume ≠ "" then jp0 ++ ", " ++ m.volume
            else jp0
          let jp2 := if m.pagesField ≠ "" then jp1 ++ ", " ++ m.pagesField else jp1
          parts1 ++ [jp2 ++ "."]
        else parts1
      let parts3 :=
        if m.publisher ≠ "" ∧ journal = "" then parts2 ++ [m.publisher ++ "."] else parts2
      let parts4 :=
        if m.doi ≠ "" then parts3 ++ ["https://doi.org/" ++ m.doi]
        else if m.url ≠ "" then parts3 ++ [m.url]
        else parts3
      some (joinSep " " parts4)

/-- `_format_ieee_full_reference`. -/
def formatIeeeFullReference (author : String) (year : Option String) (title : String)
    (m : FMeta) : Option String :=
  if title = "" then none
  else
    let ft := quoteTitle title
    let journal := metaJournal m
    let parts0 := if author ≠ "" then [author ++ ","] else []
    let parts1 := parts0 ++ [ft]
    let parts2 :=
      if journal ≠ "" then
        let jp0 := "*" ++ journal ++ "*"
        let jp1 :=
          if m.volume ≠ "" ∧ m.issue ≠ "" then
            jp0 ++ ", vol. " ++ m.volume ++ ", no. " ++ m.issue
          else if m.volume ≠ "" then jp0 ++ ", vol. " ++ m.volume
          else jp0
        let jp2 := if m.pagesField ≠ "" then jp1 ++ ", pp. " ++ m.pagesField else jp1
        let jp3 :=
          match year with
          | some y => jp2 ++ ", " ++ y ++ "."
          | none => jp2 ++ "."
        parts1 ++ [jp3]
      else
        if m.publisher ≠ "" then
          match year with
          | some y => parts1 ++ [m.publisher ++ ", " ++ y ++ "."]
          | none => parts1 ++ [m.publisher ++ "."]
        else
          match year with
          | some y => parts1 ++ [y ++ "."]
          | none => parts1 ++ ["."]
    let parts3 :=
      if m.doi ≠ "" then parts2 ++ ["DOI: " ++ m.doi]
      else if m.url ≠ "" then parts2 ++ ["[Online]. Available: " ++ m.url]
      else parts2
    some (joinSep " " parts3)

/-- A citation dictionary as consumed by `format_reference_list`:
`source` plus `metadata`. -/
structure RefCitation where
  source : String := ""
  metadata : FMeta := {}

/-- `_format_full_reference` specialized to the IEEE style. -/
def formatFullRefIEEE (currentYear : Nat) (c : RefCitation) : Option String :=
  let author := extractAuthor .IEEE c.metadata c.source false
  let year := extractYear currentYear c.metadata c.source
  let title := extractTitle c.metadata c.source
  formatIeeeFullReference author year title c.metadata

/-- `_format_full_reference` specialized to the APA style. -/
def formatFullRefAPA (currentYear : Nat) (c : RefCitation) : Option String :=
  let author := extractAuthor .APA c.metadata c.source false
  let year := extractYear currentYear c.metadata c.source
  let title := extractTitle c.metadata c.source
  formatApaFullReference author year title c.metadata

/-- `ref = self._format_full_reference(citation)` followed by `if ref:`
(truthiness: non-`None` and non-empty). -/
def refOk (currentYear : Nat) (c : RefCitation) : Option String :=
  match formatFullRefIEEE currentYear c with
  | some r => if r = "" then none else some r
  | none => none

/-- The first deduplication pass of `format_reference_list` (lines 130-140):
collect one formatted reference per distinct non-empty source, in encounter
order, adding a source to `seen` only once a reference was produced for it. -/
def dedupRefs (currentYear : Nat) : List RefCitation → List String → List String
  | [], _ => []
  | c :: rest, seen =>
    if c.source ≠ "" ∧ c.source ∉ seen then
      match refOk currentYear c with
      | some r => r :: dedupRefs currentYear rest (seen ++ [c.source])
      | none => dedupRefs currentYear rest seen
    else dedupRefs currentYear rest seen

/-- The IEEE placement loop (lines 149-163): write mapped references into a
fixed-length slot array at `map[source]-1` when in range, append unmapped
references to `unmapped_refs`. -/
def placeRefs (currentYear : Nat) (m : List (String × Nat)) :
    List RefCitation → List (Option String) → List String →
    List (Option String) × List String
  | [], slots, un => (slots, un)
  | c :: rest, slots, un =>
    match lookupNum m c.source with
    | some n =>
      match refOk currentYear c with
      | some r =>
        placeRefs currentYear m rest
          (if 1 ≤ n ∧ n - 1 < slots.length then slots.set (n - 1) (some r) else slots) un
      | none => placeRefs currentYear m rest slots un
    | none =>
      match refOk currentYear c with
      | some r => placeRefs currentYear m rest slots (un ++ [r])
      | none => placeRefs currentYear m rest slots un

/-- `for i, ref in enumerate(final_refs, 1): text += f"[{i}] {ref}\n\n"`. -/
def mkNumberedLines (i : Nat) : List String → String
  | [] => ""
  | r :: rest => "[" ++ toString i ++ "] " ++ r ++ "\n\n" ++ mkNumberedLines (i + 1) rest

/-- The IEEE branch of `format_reference_list` (lines 119-191), run against a
given numbering map `m` (the formatter's `_citation_map`). -/
def formatReferenceListIEEE (currentYear : Nat) (m : List (String × Nat))
    (citations : List RefCitation) : String :=
  let refs := dedupRefs currentYear citations []
  if refs = [] then ""
  else
    let placed := placeRefs currentYear m citations (List.replicate refs.length none) []
    let finalRefs := placed.1.filterMap id ++ placed.2
    pyStrip ("References\n\n" ++ mkNumberedLines 1 finalRefs)

/-- Spec-side view of the placement loop: the references that the citation
list writes into slot `j` of a `k`-slot array (in loop order). -/
def slotWrites (currentYear : Nat) (m : List (String × Nat)) (k j : Nat)
    (citations : List RefCitation) : List String :=
  citations.filterMap (fun c =>
    match refOk currentYear c, lookupNum m c.source with
    | some r, some n => if n = j + 1 ∧ j < k then some r else none
    | _, _ => none)

/-- Spec-side view of the slot array after the loop: slot `j` holds the last
reference written to it, if any. -/
def specSlots (currentYear : Nat) (m : List (String × Nat)) (k : Nat)
    (citations : List RefCitation) : List (Option String) :=
  (List.range k).map (fun j => (slotWrites currentYear m k j citations).getLast?)

/-- Spec-side view of the unmapped pass: one appended reference per citation
occurrence whose source holds no number, in encounter order. -/
def specUnmapped (currentYear : Nat) (m : List (String × Nat))
    (citations : List RefCitation) : List String :=
  citations.filterMap (fun c =>
    match lookupNum m c.source with
    | none => refOk currentYear c
    | some _ => none)

/-! ## Bibliography parser (src/bibliography_parser.py) -/

/-- `re.search(r'\((\d{4})\)', s)`: first parenthesized four-digit year. -/
def searchParenYear : List Char → Option (List Char)
  | '(' :: c1 :: c2 :: c3 :: c4 :: ')' :: rest =>
    if c1.isDigit && c2.isDigit && c3.isDigit && c4.isDigit then some [c1, c2, c3, c4]
    else searchParenYear (c1 :: c2 :: c3 :: c4 :: ')' :: rest)
  | _ :: rest => searchParenYear rest
  | [] => none

/-- `re.search(r'doi:([^\s]+)', s, re.IGNORECASE)`. -/
def searchDoiCI : List Char → Option (List Char)
  | d :: o :: i :: c :: rest =>
    if d.toLower = 'd' ∧ o.toLower = 'o' ∧ i.toLower = 'i' ∧ c = ':' then
      let run := rest.takeWhile (fun x => !(isPyWs x))
      if run ≠ [] then some run else searchDoiCI (o :: i :: c :: rest)
    else searchDoiCI (o :: i :: c :: rest)
  | _ => none

/-- One attempt of `https?://[^\s]+` at the current position (the optional
`s` is greedy, so `https://` is preferred). -/
def tryUrlAt (l : List Char) : Option (List Char) :=
  if ("https://".toList).isPrefixOf l then
    let run := (l.drop 8).takeWhile (fun x => !(isPyWs x))
    if run ≠ [] then some ("https://".toList ++ run) else none
  else if ("http://".toList).isPrefixOf l then
    let run := (l.drop 7).takeWhile (fun x => !(isPyWs x))
    if run ≠ [] then some ("http://".toList ++ run) else none
  else none

/-- `re.search(r'https?://[^\s]+', s)`, group 0. -/
def searchUrl : List Char → Option (List Char)
  | [] => none
  | c :: rest =>
    match tryUrlAt (c :: rest) with
    | some r => some r
    | none => searchUrl rest

/-- `re.search(r'^([^(]+)\s*\(', s)`: the greedy group is the maximal
paren-free prefix, which must be non-empty and followed by `(`. -/
def bibAuthorsGroup (l : List Char) : Option (List Char) :=
  let p := l.takeWhile (· != '(')
  if p.isEmpty then none
  else
    match l.drop p.length with
    | '(' :: _ => some p
    | _ => none

/-- `[author.strip() for author in group(1).strip().split(',') if author.strip()]`. -/
def splitAuthorsOnComma (p : List Char) : List String :=
  (((splitSepL [','] (pyStripL p)).map pyStripL).filter (· ≠ [])).map mkStr

/-- One attempt of `\(\d{4}\)\.\s*([^.]+)\.\s*[A-Z]` at the current position.
`\s*` and `[^.]+` jointly consume exactly the characters up to the next `.`
(the group, stripped, is the stripped span), which must be non-empty and be
followed by `.`, optional whitespace and an uppercase letter. -/
def tryTitleJournalAt : List Char → Option (List Char)
  | '(' :: c1 :: c2 :: c3 :: c4 :: ')' :: '.' :: rest =>
    if c1.isDigit && c2.isDigit && c3.isDigit && c4.isDigit then
      let span := rest.takeWhile (· != '.')
      if span ≠ [] then
        match rest.drop span.length with
        | '.' :: rest2 =>
          match (rest2.dropWhile isPyWs).head? with
          | some u => if u.isUpper then some (pyStripL span) else none
          | none => none
        | _ => none
      else none
    else none
  | _ => none

def searchTitleJournal : List Char → Option (List Char)
  | [] => none
  | c :: rest =>
    match tryTitleJournalAt (c :: rest) with
    | some t => some t
    | none => searchTitleJournal rest

/-- One attempt of `\(\d{4}\)\.\s*([^.]+)\.` (the book-title pattern). -/
def tryTitleBookAt : List Char → Option (List Char)
  | '(' :: c1 :: c2 :: c3 :: c4 :: ')' :: '.' :: rest =>
    if c1.isDigit && c2.isDigit && c3.isDigit && c4.isDigit then
      let span := rest.takeWhile (· != '.')
      if span ≠ [] then
        match rest.drop span.length with
        | '.' :: _ => some (pyStripL span)
        | _ => none
      else none
    else none
  | _ => none

def searchTitleBook : List Char → Option (List Char)
  | [] => none
  | c :: rest =>
    match tryTitleBookAt (c :: rest) with
    | some t => some t
    | none => searchTitleBook rest

/-- One attempt of `\(\d{4}\)[^.]*?\.\s*([^.,]+)` (the generic-title
pattern): the lazy run reaches exactly the first `.` after the year, and the
group is the following maximal period/comma-free span, non-empty. -/
def tryTitleGenericAt : List Char → Option (List Char)
  | '(' :: c1 :: c2 :: c3 :: c4 :: ')' :: rest =>
    if c1.isDigit && c2.isDigit && c3.isDigit && c4.isDigit then
      let pre := rest.takeWhile (· != '.')
      match rest.drop pre.length with
      | '.' :: rest2 =>
        let span := rest2.takeWhile (fun c => !(c == '.') && !(c == ','))
        if span ≠ [] then some (pyStripL span) else none
      | _ => none
    else none
  | _ => none

def searchTitleGeneric : List Char → Option (List Char)
  | [] => none
  | c :: rest =>
    match tryTitleGenericAt (c :: rest) with
    | some t => some t
    | none => searchTitleGeneric rest

/-- One attempt of `([A-Z][^,]+),\s*(\d+)(?:\((\d+)\))?,\s*([^.]+)\.` at the
current position: an uppercase letter, then a maximal comma-free run bounded
by a comma, whitespace, a digit run, an optional parenthesized digit run, a
comma, and a span up to the next period; each forced by greediness. -/
def tryJournalInfoAt : List Char → Option (List Char × List Char × List Char × List Char)
  | [] => none
  | c :: rest =>
    if c.isUpper then
      let r1 := rest.takeWhile (· != ',')
      if r1 ≠ [] then
        match rest.drop r1.length with
        | ',' :: rest2 =>
          let rest3 := rest2.dropWhile isPyWs
          let vol := rest3.takeWhile Char.isDigit
          if vol ≠ [] then
            let tail :=
              match rest3.drop vol.length with
              | '(' :: rest5 =>
                let iss := rest5.takeWhile Char.isDigit
                if iss ≠ [] then
                  match rest5.drop iss.length with
                  | ')' :: ',' :: rest7 => some (iss, rest7)
                  | _ => none
                else none
              | ',' :: rest7 => some ([], rest7)
              | _ => none
            match tail with
            | some (iss, rest7) =>
              let span := rest7.takeWhile (· != '.')
              if span ≠ [] then
                match rest7.drop span.length with
                | '.' :: _ => some (c :: r1, vol, iss, span)
                | _ => none
              else none
            | none => none
          else none
        | _ => none
      else none
    else none

def searchJournalInfo : List Char → Option (List Char × List Char × List Char × List Char)
  | [] => none
  | c :: rest =>
    match tryJournalInfoAt (c :: rest) with
    | some x => some x
    | none => searchJournalInfo rest

/-- A parsed bibliography entry (`_parse_single_entry`'s dictionary). -/
structure BibEntry where
  raw_text : String := ""
  title : String := ""
  authors : List String := []
  year : String := ""
  journal : String := ""
  volume : String := ""
  issue : String := ""
  pagesField : String := ""
  doi : String := ""
  url : String := ""
  etype : String := "unknown"

/-- `_parse_journal_entry` (lines 101-132). -/
def parseJournalEntry (l : List Char) (e0 : BibEntry) : BibEntry :=
  let e1 := { e0 with etype := "journal" }
  let e2 :=
    match searchTitleJournal l with
    | some t => { e1 with title := mkStr t }
    | none => e1
  let e3 :=
    match bibAuthorsGroup l with
    | some p => { e2 with authors := splitAuthorsOnComma p }
    | none => e2
  match searchJournalInfo l with
  | some (j, v, i, pg) =>
    { e3 with journal := mkStr (pyStripL j), volume := mkStr v,
              issue := mkStr i, pagesField := mkStr (pyStripL pg) }
  | none => e3

/-- `_parse_book_entry` (lines 134-155). -/
def parseBookEntry (l : List Char) (e0 : BibEntry) : BibEntry :=
  let e1 := { e0 with etype := "book" }
  let e2 :=
    match searchTitleBook l with
    | some t => { e1 with title := mkStr t }
    | none => e1
  match bibAuthorsGroup l with
  | some p => { e2 with authors := splitAuthorsOnComma p }
  | none => e2

/-- `_parse_generic_entry` (lines 157-184). -/
def parseGenericEntry (l : List Char) (e0 : BibEntry) : BibEntry :=
  let e1 :=
    match searchTitleGeneric l with
    | some t => { e0 with title := mkStr t }
    | none => e0
  let e2 :=
    if e1.title = "" then
      match findSubIdx ['.'] l with
      | some i =>
        if 0 < i then
          let potential := pyStripL (l.take i)
          if 10 < potential.length ∧ ¬ containsSubL ['('] potential then
            { e1 with title := mkStr potential }
          else e1
        else e1
      | none => e1
    else e1
  match bibAuthorsGroup l with
  | some p => { e2 with authors := splitAuthorsOnComma p }
  | none => e2

/-- `_parse_single_entry` (lines 47-99): extract year/doi/url, dispatch on
the journal/book keywords, and drop the entry when no title was resolved. -/
def parseSingleEntry (text : String) : Option BibEntry :=
  let l := text.toList
  let base : BibEntry :=
    { raw_text := text
      year := match searchParenYear l with | some r => mkStr r | none => ""
      doi := match searchDoiCI l with | some r => mkStr r | none => ""
      url := match searchUrl l with | some r => mkStr r | none => "" }
  let entry :=
    if containsSubL "Journal".toList l || containsSubL "journal".toList (toLowerL l) then
      parseJournalEntry l base
    else if containsSubL "Book".toList l || containsSubL "book".toList (toLowerL l) then
      parseBookEntry l base
    else parseGenericEntry l base
  if entry.title ≠ "" then some entry else none

/-- The C4 example entry text. -/
def jonesEntryText : String :=
  "Jones, A. (2019). Deep Learning Basics. Journal of AI, 5(2), 100-110."

/-! ## PDF library metadata and content index (src/pdf_library.py) -/

/-- `_extract_year_from_date` (lines 294-307): first 4-digit token of the
date string, kept only inside `1900..2030`. -/
def extractYearFromDate (dateString : String) : String :=
  if dateString = "" then ""
  else
    match firstFourRun dateString.toList with
    | some r =>
      if 1900 ≤ natOfDigits r ∧ natOfDigits r ≤ 2030 then toString (natOfDigits r) else ""
    | none => ""

/-- The publication-keyword test of `_extract_year_from_text`
(`any(keyword in line.lower() for keyword in [...])`). -/
def pubKeywordHit (line : List Char) : Bool :=
  let ctx := toLowerL line
  ["published", "copyright", "©", "journal", "conference", "proceedings"].any
    (fun k => containsSubL k.toList ctx)

/-- The inner loop of `_extract_year_from_text` over one line's 4-digit
tokens. -/
def yearFromRuns (line : List Char) : List (List Char) → Option (List Char)
  | [] => none
  | r :: rest =>
    let y := natOfDigits r
    if 1900 ≤ y ∧ y ≤ 2030 then
      if pubKeywordHit line then some r
      else if 1980 ≤ y ∧ y ≤ 2030 then some r
      else yearFromRuns line rest
    else yearFromRuns line rest

def yearFromLines : List (List Char) → String
  | [] => ""
  | line :: rest =>
    match yearFromRuns line (findFourRuns line) with
    | some r => mkStr r
    | none => yearFromLines rest

/-- `_extract_year_from_text` (lines 524-546): scan the first 50 lines for a
4-digit token in `1900..2030`, returned when the line carries a publication
keyword or the year lies in `1980..2030`. -/
def extractYearFromText (text : String) : String :=
  if text = "" then ""
  else yearFromLines ((splitSepL ['\n'] text.toList).take 50)

/-- `re.sub(r'\([^)]*\)', '', s)`: drop every parenthesized span (up to the
first closing parenthesis); an unmatched `(` is kept.  Fuel-bounded scan. -/
def removeParensFuel : Nat → List Char → List Char
  | 0, l => l
  | _ + 1, [] => []
  | fuel + 1, '(' :: rest =>
    let inner := rest.takeWhile (· != ')')
    match rest.drop inner.length with
    | ')' :: rest2 => removeParensFuel fuel rest2
    | _ => '(' :: removeParensFuel fuel rest
  | fuel + 1, c :: rest => c :: removeParensFuel fuel rest

def removeParens (l : List Char) : List Char := removeParensFuel l.length l

/-- `re.sub(r'<[^>]*>', '', s)`. -/
def removeAnglesFuel : Nat → List Char → List Char
  | 0, l => l
  | _ + 1, [] => []
  | fuel + 1, '<' :: rest =>
    let inner := rest.takeWhile (· != '>')
    match rest.drop inner.length with
    | '>' :: rest2 => removeAnglesFuel fuel rest2
    | _ => '<' :: removeAnglesFuel fuel rest
  | fuel + 1, c :: rest => c :: removeAnglesFuel fuel rest

def removeAngles (l : List Char) : List Char := removeAnglesFuel l.length l

/-- `_parse_authors` (lines 248-275): split on the first delimiter found
among `;`, `,`, " and ", " & ", newline; strip fragments; fall back to the
whole string; then drop parentheticals, angle-bracket emails and fragments
of length ≤ 2. -/
def parseAuthors (s : String) : List String :=
  if s = "" then []
  else
    let l := s.toList
    let fromSplit : List (List Char) :=
      match [";", ",", " and ", " & ", "\n"].find? (fun d => containsSubL d.toList l) with
      | some d => ((splitSepL d.toList l).map pyStripL).filter (fun a => !a.isEmpty)
      | none => ([] : List (List Char))
    let authors := if fromSplit.isEmpty then [pyStripL l] else fromSplit
    authors.filterMap (fun a =>
      let a := pyStripL (removeAngles (removeParens a))
      if a ≠ [] ∧ 2 < a.length then some (mkStr a) else none)

/-- The author-related fields of the metadata record. -/
structure AuthorFields where
  authors : List String
  author : String

/-- The container-metadata author step of `_extract_metadata`
(lines 191-200): when the raw `/Author` value strips to something non-empty,
`authors` is its parse and `author` keeps the raw (stripped) string. -/
def containerAuthorPass (rawAuthor : String) : AuthorFields :=
  if pyStrip rawAuthor ≠ "" then
    { authors := parseAuthors (pyStrip rawAuthor), author := pyStrip rawAuthor }
  else
    { authors := [], author := "" }

/-- Python `repr` of a list of plain (quote-free) strings, used by the merge
policy's `len(str(value))` comparison. -/
def pyReprList (l : List String) : String :=
  "[" ++ joinSep ", " (l.map (fun s => "'" ++ s ++ "'")) ++ "]"

/-- The `authors` selection of `_merge_metadata`'s key loop: the text-based
authors win when non-empty and longer in `str(...)` form. -/
def mergedAuthors (m : AuthorFields) (textAuthors : List String) : List String :=
  if textAuthors ≠ [] ∧
      (m.authors = [] ∨ (pyReprList m.authors).length < (pyReprList textAuthors).length)
  then textAuthors else m.authors

/-- The `authors`/`author` part of `_merge_metadata` (lines 566-585):
`author` is derived from `authors` (", " join) only when it is still
empty. -/
def mergeAuthorFields (m : AuthorFields) (textAuthors : List String) : AuthorFields :=
  { authors := mergedAuthors m textAuthors
    author :=
      if mergedAuthors m textAuthors ≠ [] ∧ m.author = ""
      then joinSep ", " (mergedAuthors m textAuthors) else m.author }

/-- The author fields produced by `_extract_metadata` for a document with
container author `rawAuthor` and text-extracted authors `textAuthors`. -/
def extractAuthorFields (rawAuthor : String) (textAuthors : List String) : AuthorFields :=
  mergeAuthorFields (containerAuthorPass rawAuthor) textAuthors

/-- `re.split(r'[.!?]+', text)`: pieces between maximal runs of
sentence-ending punctuation (`skipping` is true just after such a run). -/
def splitPunctAux (skipping : Bool) (cur : List Char) : List Char → List (List Char)
  | [] => if skipping then [[]] else [cur.reverse]
  | c :: rest =>
    if c = '.' || c = '!' || c = '?' then
      if skipping then splitPunctAux true [] rest
      else cur.reverse :: splitPunctAux true [] rest
    else splitPunctAux false (c :: cur) rest

def splitPunct (l : List Char) : List (List Char) := splitPunctAux false [] l

/-- The sentence-accumulation loop of `_split_into_chunks` (lines 633-666). -/
def chunkLoop (size : Nat) (cur : List Char) : List (List Char) → List (List Char)
  | [] => if pyStripL cur ≠ [] then [pyStripL cur] else []
  | s0 :: rest =>
    let s := pyStripL s0
    if s = [] then chunkLoop size cur rest
    else if size < cur.length + s.length ∧ cur ≠ [] then
      pyStripL cur :: chunkLoop size s rest
    else
      chunkLoop size (if cur = [] then s else cur ++ ' ' :: s) rest

/-- `_split_into_chunks(text, chunk_size=500)`. -/
def splitIntoChunks (text : String) (size : Nat) : List String :=
  (chunkLoop size [] (splitPunct text.toList)).map mkStr

structure PageData where
  page : Nat := 0
  text : String := ""

/-- One library record (`self.library[filename]`). -/
structure PdfData where
  filename : String := ""
  pages : List PageData := []
  metadata : FMeta := {}

structure ContentEntry where
  filename : String
  page : Nat
  text : String
  metadata : FMeta

/-- The inner loop of `get_all_content` over one page's chunks, with the
`len(chunk.strip()) > 50` filter. -/
def chunksOfPage (fn : String) (meta : FMeta) (p : PageData) : List ContentEntry :=
  (splitIntoChunks p.text 500).filterMap (fun c =>
    if 50 < (pyStrip c).length then some ⟨fn, p.page, c, meta⟩ else none)

def pagesContent (fn : String) (meta : FMeta) : List PageData → List ContentEntry
  | [] => []
  | p :: rest => chunksOfPage fn meta p ++ pagesContent fn meta rest

/-- `get_all_content` (lines 97-120). -/
def getAllContent : List PdfData → List ContentEntry
  | [] => []
  | d :: rest => pagesContent d.filename d.metadata d.pages ++ getAllContent rest

/-- Spec-side view: every chunk of every page, unfiltered. -/
def allChunksOfPage (fn : String) (meta : FMeta) (p : PageData) : List ContentEntry :=
  (splitIntoChunks p.text 500).map (fun c => ⟨fn, p.page, c, meta⟩)

def allPagesChunks (fn : String) (meta : FMeta) : List PageData → List ContentEntry
  | [] => []
  | p :: rest => allChunksOfPage fn meta p ++ allPagesChunks fn meta rest

def allLibraryChunks : List PdfData → List ContentEntry
  | [] => []
  | d :: rest => allPagesChunks d.filename d.metadata d.pages ++ allLibraryChunks rest

/-- A 50-character chunk text (no sentence punctuation, no surrounding
whitespace). -/
def chunk50Text : String := "abcdefghijklmnopqrstuvwxyzabcdefghijklmnopqrstuvwx"

def lib50 : List PdfData :=
  [{ filename := "doc.pdf", pages := [{ page := 1, text := chunk50Text }] }]

/-- A 51-character chunk text. -/
def chunk51Text : String := "abcdefghijklmnopqrstuvwxyzabcdefghijklmnopqrstuvwxy"

def lib51 : List PdfData :=
  [{ filename := "doc.pdf", pages := [{ page := 1, text := chunk51Text }] }]

/-! ## Citation processor (src/citation_processor.py) -/

/-- The three Azure environment variables read by `__init__`
(`os.getenv(..., "")`). -/
structure AzureConfig where
  endpoint : String := ""
  apiKey : String := ""
  deployment : String := ""

/-- `self.client is not None`: the client is built only when all three
variables are non-empty (each empty one short-circuits `__init__`). -/
def clientConfigured (c : AzureConfig) : Bool :=
  !(c.endpoint == "") && !(c.apiKey == "") && !(c.deployment == "")

structure ProcessStats where
  claims_identified : Nat := 0
  citations_added : Nat := 0
  sources_used : Nat := 0

/-- One entry of the result's `citations` list. -/
structure FoundCitation where
  claim : String := ""
  claim_type : String := ""
  source : String := ""
  quote : String := ""
  page : String := ""
  citation : String := ""

/-- The dictionary returned by `process_paper`. -/
structure ProcessResult where
  original_text : String := ""
  cited_text : String := ""
  citations : List FoundCitation := []
  references : String := ""
  stats : ProcessStats := {}
  errorField : Option String := none

/-- `process_paper` (lines 57-167): the unconfigured-client guard is fully
modelled; the configured branch (claim identification, matching and
insertion, which call the external inference service) is abstracted as the
continuation `rest`. -/
def processPaper (rest : String → Option ProcessResult) (cfg : AzureConfig)
    (paperContent : String) : Option ProcessResult :=
  if clientConfigured cfg then rest paperContent
  else
    some
      { original_text := paperContent
        cited_text := paperContent
        citations := []
        references := ""
        stats := { claims_identified := 0, citations_added := 0, sources_used := 0 }
        errorField := some "OpenAI client not configured" }

/-- Metadata fields consulted by `_calculate_source_authority`. -/
structure AuthMeta where
  journal : String := ""
  doi : String := ""
  publisher : String := ""
  year : String := ""
  author : String := ""
  title : String := ""

/-- `if cond: score += q` rendered as an addend. -/
def bonus (b : Prop) [Decidable b] (q : ℚ) : ℚ := if b then q else 0

/-- `any(term in filename.lower() for term in terms)`. -/
def filenameHasTerm (filename : String) (terms : List String) : Bool :=
  terms.any (fun t => containsSubL t.toList (toLowerL filename.toList))

/-- The claim-type-specific adjustments of `_calculate_source_authority`
(lines 332-393). -/
def claimTypeScore (filename : String) (meta : AuthMeta) (claimType : String) : ℚ :=
  if claimType = "FACTUAL" then
    bonus (meta.journal ≠ "") 0.2 + bonus (meta.doi ≠ "") 0.1
      + bonus (meta.publisher ≠ ""
          ∧ containsSubL "university".toList (toLowerL meta.publisher.toList)) 0.1
  else if claimType = "STATISTICAL" then
    bonus (meta.journal ≠ "") 0.3
      + bonus (filenameHasTerm filename ["data", "study", "survey", "analysis"]) 0.2
      + (match pyIntL meta.year.toList with
         | some y => bonus (2015 ≤ y) 0.1
         | none => 0)
  else if claimType = "THEORETICAL" then
    bonus (meta.journal ≠ "") 0.2
      + (match pyIntL meta.year.toList with
         | some y => if y ≤ 2000 then 0.1 else bonus (2010 ≤ y) 0.05
         | none => 0)
      + bonus (filenameHasTerm filename ["theory", "framework", "model", "concept"]) 0.15
  else if claimType = "METHODOLOGICAL" then
    bonus (meta.journal ≠ "") 0.3
      + bonus (filenameHasTerm filename ["method", "procedure", "protocol", "technique"]) 0.2
      + bonus (meta.doi ≠ "") 0.1
  else if claimType = "OPINION_INTERPRETATION" then
    (match pyIntL meta.year.toList with
     | some y => bonus (2018 ≤ y) 0.15
     | none => 0)
      + bonus (meta.journal ≠ "") 0.1
      + bonus (filenameHasTerm filename ["analysis", "perspective", "discussion", "review"]) 0.1
  else 0

/-- `_calculate_source_authority` (lines 302-405), with the pdf-library /
bibliography metadata lookup abstracted into the `meta` argument (the lookup
only assembles `meta`; every adjustment is a function of it). -/
def calcSourceAuthority (filename : String) (meta : AuthMeta) (claimType : String) : ℚ :=
  let score := (0.5 : ℚ) + claimTypeScore filename meta claimType
      + bonus (meta.author ≠ "") 0.05 + bonus (meta.title ≠ "") 0.05
  min score 1

/-- The threshold table of `_is_source_appropriate_for_claim_type`
(lines 407-434). -/
def claimTypeThreshold (claimType : String) : ℚ :=
  if claimType = "FACTUAL" then 0.6
  else if claimType = "STATISTICAL" then 0.65
  else if claimType = "THEORETICAL" then 0.55
  else if claimType = "METHODOLOGICAL" then 0.7
  else if claimType = "OPINION_INTERPRETATION" then 0.4
  else 0.5

/-- `_is_source_appropriate_for_claim_type`: `authority_score >= threshold`. -/
def isSourceAppropriate (claimType : String) (authorityScore : ℚ) : Bool :=
  decide (claimTypeThreshold claimType ≤ authorityScore)

/-! ## Theorems -/

/-- Helper: looking a name up in `mapFrom k nms` yields `k + idxOf nms f + 1`
when the name occurs, and nothing otherwise. -/
theorem lookupNum_mapFrom (nms : List String) (k : Nat) (f : String) :
    lookupNum (mapFrom k nms) f =
      if f ∈ nms then some (k + idxOf nms f + 1) else none := by
  induction nms generalizing k with
  | nil => simp [mapFrom, lookupNum]
  | cons a t ih =>
    simp only [mapFrom, lookupNum, idxOf]
    by_cases h : a = f
    · subst h
      simp
    · have hne : f ≠ a := fun hh => h hh.symm
      simp only [h, if_false, ih t.length.succ]
      rw [ih (k + 1)]
      by_cases hm : f ∈ t
      · simp [hm, List.mem_cons, hne]
        omega
      · simp [hm, List.mem_cons, hne]

theorem mapFrom_append_one (nms : List String) (k : Nat) (f : String) :
    mapFrom k (nms ++ [f]) = mapFrom k nms ++ [(f, k + nms.length + 1)] := by
  induction nms generalizing k with
  | nil => simp [mapFrom]
  | cons a t ih =>
    have h1 : (a :: t) ++ [f] = a :: (t ++ [f]) := rfl
    rw [h1]
    show (a, k + 1) :: mapFrom (k + 1) (t ++ [f]) =
      ((a, k + 1) :: mapFrom (k + 1) t) ++ [(f, k + (a :: t).length + 1)]
    rw [ih]
    have h2 : k + 1 + t.length + 1 = k + (a :: t).length + 1 := by
      simp only [List.length_cons]
      omega
    rw [h2]
    rfl

/-- Helper: one numbering step starting from the canonical state of a seen-list. -/
theorem ieeeInTextStep_canonical (nms : List String) (f : String) :
    ieeeInTextStep ⟨nms.length, mapFrom 0 nms⟩ f =
      if f ∈ nms then (⟨nms.length, mapFrom 0 nms⟩, idxOf nms f + 1)
      else (⟨(nms ++ [f]).length, mapFrom 0 (nms ++ [f])⟩, nms.length + 1) := by
  simp only [ieeeInTextStep, lookupNum_mapFrom]
  by_cases h : f ∈ nms
  · simp [h]
  · simp [h, mapFrom_append_one]

/-- Helper: running a citation sequence from the canonical state of a seen-list
lands in the canonical state of the extended seen-list. -/
theorem citeAll_canonical (fs nms : List String) :
    citeAll ⟨nms.length, mapFrom 0 nms⟩ fs =
      ⟨(firstOccAux nms fs).length, mapFrom 0 (firstOccAux nms fs)⟩ := by
  induction fs generalizing nms with
  | nil => simp [citeAll, firstOccAux]
  | cons f t ih =>
    simp only [citeAll, firstOccAux, ieeeInTextStep_canonical]
    by_cases h : f ∈ nms
    · simp only [h, if_true]
      exact ih nms
    · simp only [h, if_false]
      exact ih (nms ++ [f])

theorem mem_firstOccAux (fs nms : List String) (f : String) (h : f ∈ nms ∨ f ∈ fs) :
    f ∈ firstOccAux nms fs := by
  induction fs generalizing nms with
  | nil =>
    simp only [firstOccAux]
    rcases h with h | h
    · exact h
    · cases h
  | cons a t ih =>
    simp only [firstOccAux]
    by_cases ha : a ∈ nms
    · simp only [ha, if_true]
      apply ih
      rcases h with h | h
      · exact Or.inl h
      · rcases List.mem_cons.mp h with h | h
        · exact Or.inl (h ▸ ha)
        · exact Or.inr h
    · simp only [ha, if_false]
      apply ih
      rcases h with h | h
      · exact Or.inl (List.mem_append_left _ h)
      · rcases List.mem_cons.mp h with h | h
        · subst h
          exact Or.inl (List.mem_append_right _ (List.mem_singleton.mpr rfl))
        · exact Or.inr h

theorem lookupNum_append_left (m l : List (String × Nat)) (f : String) (n : Nat)
    (h : lookupNum m f = some n) : lookupNum (m ++ l) f = some n := by
  induction m with
  | nil => simp [lookupNum] at h
  | cons p t ih =>
    simp only [lookupNum, List.cons_append] at h ⊢
    by_cases hp : p.1 = f
    · simpa [hp] using h
    · simp only [hp, if_false] at h ⊢
      exact ih h

/-- C1: IEEE in-text numbering.  Starting from a fresh (or freshly reset)
formatter state, every filename cited in a sequence ends up with exactly one
number, namely one plus its position in the order of first citation (so the
numbers start at 1 and increase monotonically in first-citation order); a
filename that already holds a number keeps it across any further citation
step; citing A, B, A, C yields A:1, B:2, C:3; and after `reset_state` the
sequence B, A yields B:1, A:2 regardless of the prior state. -/
theorem ieee_in_text_numbering :
    (∀ fs f, f ∈ fs →
      lookupNum (citeAll initIeee fs).assigned f = some (idxOf (firstOcc fs) f + 1))
    ∧ (∀ (st : IeeeState) (f g : String) (n : Nat),
        lookupNum st.assigned f = some n →
        lookupNum ((ieeeInTextStep st g).1).assigned f = some n)
    ∧ (citeAll initIeee ["A", "B", "A", "C"]).assigned = [("A", 1), ("B", 2), ("C", 3)]
    ∧ (∀ st : IeeeState,
        (citeAll (resetState st) ["B", "A"]).assigned = [("B", 1), ("A", 2)]) := by
  refine ⟨?_, ?_, ?_, ?_⟩
  · intro fs f hf
    have h0 : initIeee = (⟨(([] : List String)).length, mapFrom 0 []⟩ : IeeeState) := rfl
    rw [h0, citeAll_canonical fs []]
    have hmem : f ∈ firstOccAux [] fs := mem_firstOccAux fs [] f (Or.inr hf)
    simp only [lookupNum_mapFrom, firstOcc, hmem, if_true, Nat.zero_add]
  · intro st f g n h
    simp only [ieeeInTextStep]
    cases hg : lookupNum st.assigned g with
    | some m => simpa using h
    | none => exact lookupNum_append_left _ _ _ _ h
  · rfl
  · intro st
    rfl

/-- C2 counterexample: the round-trip property fails as stated.  Formatting a
citation with an author but no year under MLA yields `Smith. "Sample Title"`,
and the MLA validator (which demands a quoted title followed by a four-digit
year) rejects it. -/
theorem round_trip_mla_author_only_fails :
    roundTrip 2026 .MLA siAonly = false := by decide

/-- C2 amended: the format-then-validate round trip holds for all four
author/year presence combinations under APA, for MLA and Chicago only when
both author and year are present, and for IEEE only when an author is
present; the remaining eight presence cases validate to false. -/
theorem round_trip_presence_table :
    roundTrip 2026 .APA siAY = true ∧ roundTrip 2026 .APA siAonly = true
    ∧ roundTrip 2026 .APA siYonly = true ∧ roundTrip 2026 .APA siNone = true
    ∧ roundTrip 2026 .MLA siAY = true ∧ roundTrip 2026 .MLA siAonly = false
    ∧ roundTrip 2026 .MLA siYonly = false ∧ roundTrip 2026 .MLA siNone = false
    ∧ roundTrip 2026 .Chicago siAY = true ∧ roundTrip 2026 .Chicago siAonly = false
    ∧ roundTrip 2026 .Chicago siYonly = false ∧ roundTrip 2026 .Chicago siNone = false
    ∧ roundTrip 2026 .IEEE siAY = true ∧ roundTrip 2026 .IEEE siAonly = true
    ∧ roundTrip 2026 .IEEE siYonly = false ∧ roundTrip 2026 .IEEE siNone = false := by
  decide

/-- C3 counterexample: for `Smith_2020_ClimateData.pdf` with empty metadata
the title extractor does not return "ClimateData" (only the leading
`Smith_` author segment is stripped, the `2020_` year segment is kept), and
the APA full reference built from the extracted fields is not
`Smith (2020). ClimateData.`. -/
theorem smith_filename_extraction_counterexample :
    extractTitle {} "Smith_2020_ClimateData.pdf" ≠ "ClimateData"
    ∧ formatApaFullReference
        (extractAuthor .APA {} "Smith_2020_ClimateData.pdf" false)
        (extractYear 2026 {} "Smith_2020_ClimateData.pdf")
        (extractTitle {} "Smith_2020_ClimateData.pdf") {}
      ≠ some "Smith (2020). ClimateData." := by
  decide

/-- C3 amended: for `Smith_2020_ClimateData.pdf` with empty metadata the
extraction functions return author "Smith", year "2020" and title
"2020 ClimateData" (the `(YYYY)` removal step only deletes parenthesized
years, so the underscore-separated year stays in the title), and the APA
full reference produced from them is `Smith (2020). 2020 ClimateData.`. -/
theorem smith_filename_extraction :
    extractAuthor .APA {} "Smith_2020_ClimateData.pdf" false = "Smith"
    ∧ extractYear 2026 {} "Smith_2020_ClimateData.pdf" = some "2020"
    ∧ extractTitle {} "Smith_2020_ClimateData.pdf" = "2020 ClimateData"
    ∧ formatApaFullReference
        (extractAuthor .APA {} "Smith_2020_ClimateData.pdf" false)
        (extractYear 2026 {} "Smith_2020_ClimateData.pdf")
        (extractTitle {} "Smith_2020_ClimateData.pdf") {}
      = some "Smith (2020). 2020 ClimateData." := by
  decide

/-- C4 counterexample: parsing the Jones entry does not produce authors
`["Jones, A."]` (the author text is split on every comma) and does not
produce journal `"Journal of AI"` (the journal regex's greedy comma-free run
starts at the `A.` initial). -/
theorem jones_bib_entry_counterexample :
    (parseSingleEntry jonesEntryText).map BibEntry.authors ≠ some ["Jones, A."]
    ∧ (parseSingleEntry jonesEntryText).map BibEntry.journal ≠ some "Journal of AI" :=
  ⟨by decide, by decide⟩

/-- C4 amended: the Jones entry parses to year "2019", title
"Deep Learning Basics", volume "5", issue "2", pages "100-110" and type
"journal" as claimed, but with authors `["Jones", "A."]` (comma-split) and
journal `"A. (2019). Deep Learning Basics. Journal of AI"` (the greedy
`[A-Z][^,]+` capture reaches back to the author initial). -/
theorem jones_bib_entry_parse :
    parseSingleEntry jonesEntryText = some
      { raw_text := jonesEntryText
        title := "Deep Learning Basics"
        authors := ["Jones", "A."]
        year := "2019"
        journal := "A. (2019). Deep Learning Basics. Journal of AI"
        volume := "5"
        issue := "2"
        pagesField := "100-110"
        doi := ""
        url := ""
        etype := "journal" } := by
  rfl

/-- Helper: every token produced by the four-digit scanner is a run of four
digits. -/
theorem findFourRuns_mem (l r : List Char) (h : r ∈ findFourRuns l) :
    r.length = 4 ∧ r.all Char.isDigit = true := by
  induction l using findFourRuns.induct with
  | case1 c1 c2 c3 c4 rest hd ih =>
    rw [findFourRuns, if_pos hd] at h
    rcases List.mem_cons.mp h with h | h
    · simp only [Bool.and_eq_true] at hd
      obtain ⟨⟨⟨h1, h2⟩, h3⟩, h4⟩ := hd
      subst h
      refine ⟨rfl, ?_⟩
      simp [h1, h2, h3, h4]
    · exact ih h
  | case2 c1 c2 c3 c4 rest hd ih =>
    rw [findFourRuns, if_neg hd] at h
    exact ih h
  | case3 l hne =>
    rw [findFourRuns] at h
    · cases h
    · exact hne

/-- Helper: the inner per-line year loop only returns a member of its token
list whose value lies in `1900..2030`. -/
theorem yearFromRuns_sound (line : List Char) (runs : List (List Char)) (r : List Char)
    (h : yearFromRuns line runs = some r) :
    r ∈ runs ∧ 1900 ≤ natOfDigits r ∧ natOfDigits r ≤ 2030 := by
  induction runs with
  | nil => simp [yearFromRuns] at h
  | cons a rest ih =>
    rw [yearFromRuns] at h
    by_cases hrange : 1900 ≤ natOfDigits a ∧ natOfDigits a ≤ 2030
    · rw [if_pos hrange] at h
      by_cases hkw : pubKeywordHit line = true
      · simp only [hkw, if_true] at h
        obtain rfl := Option.some.inj h
        exact ⟨List.mem_cons_self _ _, hrange⟩
      · simp only [hkw] at h
        by_cases h80 : 1980 ≤ natOfDigits a ∧ natOfDigits a ≤ 2030
        · rw [if_pos h80] at h
          obtain rfl := Option.some.inj h
          exact ⟨List.mem_cons_self _ _, hrange⟩
        · rw [if_neg h80] at h
          obtain ⟨hm, hr⟩ := ih h
          exact ⟨List.mem_cons_of_mem _ hm, hr⟩
    · rw [if_neg hrange] at h
      obtain ⟨hm, hr⟩ := ih h
      exact ⟨List.mem_cons_of_mem _ hm, hr⟩

/-- Helper: the line scan only ever returns a four-digit token valued in
`1900..2030`. -/
theorem yearFromLines_sound (lines : List (List Char)) (h : yearFromLines lines ≠ "") :
    ∃ r, yearFromLines lines = mkStr r ∧ r.length = 4 ∧ r.all Char.isDigit = true
      ∧ 1900 ≤ natOfDigits r ∧ natOfDigits r ≤ 2030 := by
  induction lines with
  | nil => simp [yearFromLines] at h
  | cons line rest ih =>
    rw [yearFromLines] at h ⊢
    cases hr : yearFromRuns line (findFourRuns line) with
    | some r =>
      obtain ⟨hm, h1, h2⟩ := yearFromRuns_sound line _ r hr
      obtain ⟨hl, hd⟩ := findFourRuns_mem line r hm
      exact ⟨r, rfl, hl, hd, h1, h2⟩
    | none =>
      rw [hr] at h
      exact ih h

/-- C5 counterexample: the pdf-library year extraction caps candidate years
at the fixed constant 2030, not at the runtime current year: the creation
date `D:20290101` stores year "2029", which exceeds the current year (2026
at the time of verification). -/
theorem year_bound_counterexample :
    extractYearFromDate "D:20290101" = "2029" ∧ 2026 < 2029 := by
  exact ⟨rfl, by decide⟩

/-- C5 amended: both pdf-library extraction passes only ever store a
four-digit year between 1900 and the fixed bound 2030 (not the runtime
current year): `_extract_year_from_date` returns "" or the decimal print of
a year in `1900..2030`, and `_extract_year_from_text` returns "" or one of
the scanned four-digit tokens whose value lies in `1900..2030`. -/
theorem year_extraction_range :
    (∀ ds : String, extractYearFromDate ds = ""
      ∨ ∃ y : Nat, 1900 ≤ y ∧ y ≤ 2030 ∧ extractYearFromDate ds = toString y)
    ∧ (∀ text : String, extractYearFromText text = ""
      ∨ ∃ r : List Char, extractYearFromText text = mkStr r ∧ r.length = 4
          ∧ r.all Char.isDigit = true ∧ 1900 ≤ natOfDigits r ∧ natOfDigits r ≤ 2030) := by
  constructor
  · intro ds
    rw [extractYearFromDate]
    by_cases hds : ds = ""
    · simp [hds]
    · rw [if_neg hds]
      cases hr : firstFourRun ds.toList with
      | some r =>
        by_cases hrange : 1900 ≤ natOfDigits r ∧ natOfDigits r ≤ 2030
        · refine Or.inr ⟨natOfDigits r, hrange.1, hrange.2, ?_⟩
          show (if 1900 ≤ natOfDigits r ∧ natOfDigits r ≤ 2030
                then toString (natOfDigits r) else "") = toString (natOfDigits r)
          rw [if_pos hrange]
        · refine Or.inl ?_
          show (if 1900 ≤ natOfDigits r ∧ natOfDigits r ≤ 2030
                then toString (natOfDigits r) else "") = ""
          rw [if_neg hrange]
      | none => exact Or.inl rfl
  · intro text
    rw [extractYearFromText]
    by_cases ht : text = ""
    · simp [ht]
    · rw [if_neg ht]
      by_cases hz : yearFromLines ((splitSepL ['\n'] text.toList).take 50) = ""
      · exact Or.inl hz
      · exact Or.inr (yearFromLines_sound _ hz)

/-- Helper: when the pre-merge `author` is empty and the merged authors list
is non-empty, the merge derives `author` as the ", " join. -/
theorem mergeAuthorFields_join (m : AuthorFields) (t : List String)
    (h1 : (mergeAuthorFields m t).authors ≠ []) (h2 : m.author = "") :
    (mergeAuthorFields m t).author = joinSep ", " ((mergeAuthorFields m t).authors) := by
  show (if mergedAuthors m t ≠ [] ∧ m.author = ""
        then joinSep ", " (mergedAuthors m t) else m.author)
      = joinSep ", " (mergedAuthors m t)
  rw [if_pos ⟨h1, h2⟩]

/-- Helper: when the pre-merge `author` is non-empty, the merge keeps it. -/
theorem mergeAuthorFields_keep (m : AuthorFields) (t : List String)
    (h2 : m.author ≠ "") :
    (mergeAuthorFields m t).author = m.author := by
  show (if mergedAuthors m t ≠ [] ∧ m.author = ""
        then joinSep ", " (mergedAuthors m t) else m.author) = m.author
  rw [if_neg (fun hc => h2 hc.2)]

/-- C6 counterexample: a container author string with a semicolon delimiter
produces `authors = ["John Smith", "Jane Doe"]` but keeps the raw string
`"John Smith; Jane Doe"` in `author`, which differs from the ", " join of
`authors`. -/
theorem author_join_counterexample :
    (extractAuthorFields "John Smith; Jane Doe" []).authors = ["John Smith", "Jane Doe"]
    ∧ (extractAuthorFields "John Smith; Jane Doe" []).author = "John Smith; Jane Doe"
    ∧ (extractAuthorFields "John Smith; Jane Doe" []).author
        ≠ joinSep ", " (extractAuthorFields "John Smith; Jane Doe" []).authors := by
  exact ⟨by decide, by decide, by decide⟩

/-- C6 amended: the `author` field equals the ", " join of `authors` only
when the container provided no author (so `author` was still empty at merge
time) and the merged `authors` list is non-empty; whenever the container
provides an author string, `author` keeps that raw string, which may differ
from the join. -/
theorem author_join_amended (raw : String) (textAuthors : List String) :
    ((extractAuthorFields raw textAuthors).authors ≠ [] → pyStrip raw = "" →
      (extractAuthorFields raw textAuthors).author
        = joinSep ", " (extractAuthorFields raw textAuthors).authors)
    ∧ (pyStrip raw ≠ "" → (extractAuthorFields raw textAuthors).author = pyStrip raw) := by
  constructor
  · intro hne hz
    have hc : containerAuthorPass raw = ⟨[], ""⟩ := by
      rw [containerAuthorPass, if_neg (not_not_intro hz)]
    rw [extractAuthorFields, hc] at hne ⊢
    exact mergeAuthorFields_join _ _ hne rfl
  · intro hz
    have hc : containerAuthorPass raw = ⟨parseAuthors (pyStrip raw), pyStrip raw⟩ := by
      rw [containerAuthorPass, if_pos hz]
    rw [extractAuthorFields, hc]
    exact mergeAuthorFields_keep _ _ hz

/-- Concrete instantiation of `author_join_amended` discharging its
hypotheses: with no container author and text authors John Smith and
Jane Doe, `author` is their ", " join; with the semicolon-delimited
container author, `author` keeps the raw string. -/
theorem author_join_amended_witness :
    (extractAuthorFields "" ["John Smith", "Jane Doe"]).author = "John Smith, Jane Doe"
    ∧ (extractAuthorFields "John Smith; Jane Doe" []).author = "John Smith; Jane Doe" := by
  constructor
  · exact ((author_join_amended "" ["John Smith", "Jane Doe"]).1
      (by decide) (by decide)).trans (by decide)
  · exact ((author_join_amended "John Smith; Jane Doe" []).2 (by decide)).trans (by decide)

/-- Helper: filtering after mapping chunk texts to entries agrees with the
fused `filterMap` of the code. -/
theorem filterMap_filter_chunks (fn : String) (meta : FMeta) (pg : Nat) (cs : List String) :
    (cs.filterMap (fun c => if 50 < (pyStrip c).length
        then some (⟨fn, pg, c, meta⟩ : ContentEntry) else none))
      = (cs.map (fun c => (⟨fn, pg, c, meta⟩ : ContentEntry))).filter
          (fun e => decide (50 < (pyStrip e.text).length)) := by
  induction cs with
  | nil => rfl
  | cons c rest ih =>
    by_cases hc : 50 < (pyStrip c).length
    · simp [hc, ih]
    · simp [hc, ih]

/-- Helper: per page, the filtered chunk entries are the filter of all chunk
entries. -/
theorem chunksOfPage_filter (fn : String) (meta : FMeta) (p : PageData) :
    chunksOfPage fn meta p =
      (allChunksOfPage fn meta p).filter (fun e => decide (50 < (pyStrip e.text).length)) := by
  rw [chunksOfPage, allChunksOfPage]
  exact filterMap_filter_chunks fn meta p.page (splitIntoChunks p.text 500)

theorem pagesContent_filter (fn : String) (meta : FMeta) (ps : List PageData) :
    pagesContent fn meta ps =
      (allPagesChunks fn meta ps).filter (fun e => decide (50 < (pyStrip e.text).length)) := by
  induction ps with
  | nil => rfl
  | cons p rest ih =>
    rw [pagesContent, allPagesChunks, List.filter_append, chunksOfPage_filter, ih]

/-- C8 amended: the searchable index keeps exactly the chunks whose stripped
text is strictly longer than 50 characters, so a chunk of exactly 50
characters is excluded; a 50-character single-chunk page yields an empty
index while a 51-character one is kept. -/
theorem chunk_filter_amended :
    (∀ lib : List PdfData, getAllContent lib =
      (allLibraryChunks lib).filter (fun e => decide (50 < (pyStrip e.text).length)))
    ∧ getAllContent lib51 = [⟨"doc.pdf", 1, chunk51Text, {}⟩] := by
  constructor
  · intro lib
    induction lib with
    | nil => rfl
    | cons d rest ih =>
      rw [getAllContent, allLibraryChunks, List.filter_append, pagesContent_filter, ih]
  · rfl

/-- C8 counterexample: the chunker turns the 50-character page text into a
single 50-character chunk, and `get_all_content` excludes it (the filter is
strict), contradicting the claim that chunks of length exactly 50 are
included. -/
theorem chunk_filter_counterexample :
    chunk50Text.length = 50
    ∧ splitIntoChunks chunk50Text 500 = [chunk50Text]
    ∧ getAllContent lib50 = [] := by
  exact ⟨by decide, by decide, rfl⟩

/-- C9: when the inference client is unconfigured, `process_paper` returns
(without raising) a pass-through result: original and cited text equal the
input, the citations list is empty, and the explicit error marker
"OpenAI client not configured" is set. -/
theorem process_paper_unconfigured (rest : String → Option ProcessResult)
    (cfg : AzureConfig) (paper : String) (h : clientConfigured cfg = false) :
    processPaper rest cfg paper = some
      { original_text := paper
        cited_text := paper
        citations := []
        references := ""
        stats := { claims_identified := 0, citations_added := 0, sources_used := 0 }
        errorField := some "OpenAI client not configured" } := by
  rw [processPaper, h]
  rfl

/-- Concrete instantiation of `process_paper_unconfigured` discharging its
hypothesis: all three Azure variables empty. -/
theorem process_paper_unconfigured_witness :
    processPaper (fun _ => none) {} "My paper text." = some
      { original_text := "My paper text."
        cited_text := "My paper text."
        citations := []
        references := ""
        stats := { claims_identified := 0, citations_added := 0, sources_used := 0 }
        errorField := some "OpenAI client not configured" } :=
  process_paper_unconfigured (fun _ => none) {} "My paper text." rfl

/-- Helper: each conditional authority addend is non-negative. -/
theorem bonus_nonneg (b : Prop) [Decidable b] (q : ℚ) (hq : 0 ≤ q) : 0 ≤ bonus b q := by
  rw [bonus]
  split
  · exact hq
  · exact le_refl 0

/-- Helper: every claim-type adjustment block is non-negative. -/
theorem claimTypeScore_nonneg (filename : String) (meta : AuthMeta) (ct : String) :
    0 ≤ claimTypeScore filename meta ct := by
  rw [claimTypeScore]
  split_ifs
  · exact add_nonneg (add_nonneg (bonus_nonneg _ _ (by norm_num))
      (bonus_nonneg _ _ (by norm_num))) (bonus_nonneg _ _ (by norm_num))
  · refine add_nonneg (add_nonneg (bonus_nonneg _ _ (by norm_num))
      (bonus_nonneg _ _ (by norm_num))) ?_
    split
    · exact bonus_nonneg _ _ (by norm_num)
    · exact le_refl 0
  · refine add_nonneg (add_nonneg (bonus_nonneg _ _ (by norm_num)) ?_)
      (bonus_nonneg _ _ (by norm_num))
    split
    · split
      · norm_num
      · exact bonus_nonneg _ _ (by norm_num)
    · exact le_refl 0
  · exact add_nonneg (add_nonneg (bonus_nonneg _ _ (by norm_num))
      (bonus_nonneg _ _ (by norm_num))) (bonus_nonneg _ _ (by norm_num))
  · refine add_nonneg (add_nonneg ?_ (bonus_nonneg _ _ (by norm_num)))
      (bonus_nonneg _ _ (by norm_num))
    split
    · exact bonus_nonneg _ _ (by norm_num)
    · exact le_refl 0
  · exact le_refl 0

/-- C10: for every source filename, metadata and claim-type string, the
authority score starts from the 0.5 base, only gains non-negative
adjustments and is clamped at 1.0, so it lies in [0.5, 1.0]; consequently
every source clears the 0.4 OPINION_INTERPRETATION threshold. -/
theorem source_authority_bounds (filename : String) (meta : AuthMeta) (claimType : String) :
    (1 / 2 : ℚ) ≤ calcSourceAuthority filename meta claimType
    ∧ calcSourceAuthority filename meta claimType ≤ 1
    ∧ isSourceAppropriate "OPINION_INTERPRETATION"
        (calcSourceAuthority filename meta claimType) = true := by
  have h1 := claimTypeScore_nonneg filename meta claimType
  have h2 := bonus_nonneg (meta.author ≠ "") (0.05 : ℚ) (by norm_num)
  have h3 := bonus_nonneg (meta.title ≠ "") (0.05 : ℚ) (by norm_num)
  have hs : (1 / 2 : ℚ) ≤ (0.5 : ℚ) + claimTypeScore filename meta claimType
      + bonus (meta.author ≠ "") 0.05 + bonus (meta.title ≠ "") 0.05 := by
    linarith
  have hlow : (1 / 2 : ℚ) ≤ calcSourceAuthority filename meta claimType := by
    rw [calcSourceAuthority]
    exact le_min hs (by norm_num)
  refine ⟨hlow, ?_, ?_⟩
  · rw [calcSourceAuthority]
    exact min_le_right _ _
  · rw [isSourceAppropriate, decide_eq_true_eq]
    have ht : claimTypeThreshold "OPINION_INTERPRETATION" = 0.4 := rfl
    rw [ht]
    linarith

/-- Concrete instantiation of `ieee_in_text_numbering` discharging its
hypotheses: in the sequence A, B, A, C the filename "B" receives number 2,
and a step citing "B" preserves the number already assigned to "A". -/
theorem ieee_in_text_numbering_witness :
    lookupNum (citeAll initIeee ["A", "B", "A", "C"]).assigned "B" = some 2
    ∧ lookupNum ((ieeeInTextStep (citeAll initIeee ["A"]) "B").1).assigned "A" = some 1 := by
  constructor
  · have h := ieee_in_text_numbering.1 ["A", "B", "A", "C"] "B" (by decide)
    simpa using h
  · exact ieee_in_text_numbering.2.1 (citeAll initIeee ["A"]) "A" "B" 1 (by decide)

/-- Helper: prepending to a non-empty list does not change its last
element. -/
theorem getLast?_cons_ne_nil {α : Type} (a : α) {l : List α} (h : l ≠ []) :
    (a :: l).getLast? = l.getLast? := by
  cases l with
  | nil => exact absurd rfl h
  | cons b t => exact List.getLast?_cons_cons ..

/-- Helper: the unmapped-references accumulator of the placement loop
collects exactly the in-order references of citations with unmapped
sources. -/
theorem placeRefs_snd (cy : Nat) (m : List (String × Nat)) (cits : List RefCitation) :
    ∀ (slots : List (Option String)) (un : List String),
      (placeRefs cy m cits slots un).2 = un ++ specUnmapped cy m cits := by
  induction cits with
  | nil =>
    intro slots un
    simp [placeRefs, specUnmapped]
  | cons c rest ih =>
    intro slots un
    rw [placeRefs, specUnmapped, List.filterMap_cons]
    cases hl : lookupNum m c.source with
    | some n =>
      cases hro : refOk cy c with
      | some r =>
        simp only [hl, hro, ih]
        rfl
      | none =>
        simp only [hl, hro, ih]
        rfl
    | none =>
      cases hro : refOk cy c with
      | some r =>
        simp only [hl, hro, ih, List.append_assoc]
        rfl
      | none =>
        simp only [hl, hro, ih]
        rfl

/-- Helper: the placement loop never changes the slot count. -/
theorem placeRefs_fst_length (cy : Nat) (m : List (String × Nat)) (cits : List RefCitation) :
    ∀ (slots : List (Option String)) (un : List String),
      (placeRefs cy m cits slots un).1.length = slots.length := by
  induction cits with
  | nil =>
    intro slots un
    rfl
  | cons c rest ih =>
    intro slots un
    rw [placeRefs]
    cases hl : lookupNum m c.source with
    | some n =>
      cases hro : refOk cy c with
      | some r =>
        rw [ih]
        split
        · exact List.length_set ..
        · rfl
      | none => exact ih slots un
    | none =>
      cases hro : refOk cy c with
      | some r => exact ih slots (un ++ [r])
      | none => exact ih slots un

/-- Helper: a citation that hits slot `j` contributes its reference. -/
theorem slotWrites_cons_hit (cy : Nat) (m : List (String × Nat)) (k j : Nat)
    (c : RefCitation) (rest : List RefCitation) (r : String) (n : Nat)
    (hro : refOk cy c = some r) (hl : lookupNum m c.source = some n)
    (hc : n = j + 1 ∧ j < k) :
    slotWrites cy m k j (c :: rest) = r :: slotWrites cy m k j rest := by
  simp only [slotWrites, List.filterMap_cons, hro, hl]
  rw [if_pos hc]

/-- Helper: a mapped citation aimed elsewhere contributes nothing to slot
`j`. -/
theorem slotWrites_cons_miss (cy : Nat) (m : List (String × Nat)) (k j : Nat)
    (c : RefCitation) (rest : List RefCitation) (r : String) (n : Nat)
    (hro : refOk cy c = some r) (hl : lookupNum m c.source = some n)
    (hc : ¬(n = j + 1 ∧ j < k)) :
    slotWrites cy m k j (c :: rest) = slotWrites cy m k j rest := by
  simp only [slotWrites, List.filterMap_cons, hro, hl]
  rw [if_neg hc]

/-- Helper: a citation without a formattable reference contributes nothing. -/
theorem slotWrites_cons_noref (cy : Nat) (m : List (String × Nat)) (k j : Nat)
    (c : RefCitation) (rest : List RefCitation)
    (hro : refOk cy c = none) :
    slotWrites cy m k j (c :: rest) = slotWrites cy m k j rest := by
  simp only [slotWrites, List.filterMap_cons, hro]

/-- Helper: an unmapped citation contributes nothing to any slot. -/
theorem slotWrites_cons_unmapped (cy : Nat) (m : List (String × Nat)) (k j : Nat)
    (c : RefCitation) (rest : List RefCitation)
    (hl : lookupNum m c.source = none) :
    slotWrites cy m k j (c :: rest) = slotWrites cy m k j rest := by
  simp only [slotWrites, List.filterMap_cons, hl]
  cases refOk cy c <;> rfl

/-- Helper: after the placement loop, slot `j` holds the last reference
written to it, and its initial value when nothing wrote to it. -/
theorem placeRefs_fst_getElem? (cy : Nat) (m : List (String × Nat)) (cits : List RefCitation) :
    ∀ (slots : List (Option String)) (un : List String) (j : Nat),
      ((placeRefs cy m cits slots un).1)[j]? =
        match (slotWrites cy m slots.length j cits).getLast? with
        | some r => some (some r)
        | none => slots[j]? := by
  induction cits with
  | nil =>
    intro slots un j
    simp [placeRefs, slotWrites]
  | cons c rest ih =>
    intro slots un j
    rw [placeRefs]
    cases hl : lookupNum m c.source with
    | some n =>
      cases hro : refOk cy c with
      | some r =>
        rw [ih]
        have hsl : (if 1 ≤ n ∧ n - 1 < slots.length
            then slots.set (n - 1) (some r) else slots).length = slots.length := by
          split
          · exact List.length_set ..
          · rfl
        rw [hsl]
        by_cases hcond : n = j + 1 ∧ j < slots.length
        · rw [slotWrites_cons_hit cy m slots.length j c rest r n hro hl hcond]
          cases hW : (slotWrites cy m slots.length j rest).getLast? with
          | some r' =>
            have hne : slotWrites cy m slots.length j rest ≠ [] := by
              intro hz
              rw [hz] at hW
              cases hW
            rw [getLast?_cons_ne_nil r hne, hW]
          | none =>
            have hz : slotWrites cy m slots.length j rest = [] := by
              cases hzz : slotWrites cy m slots.length j rest with
              | nil => rfl
              | cons x t =>
                rw [hzz] at hW
                simp [List.getLast?_eq_none_iff] at hW
            rw [hz, List.getLast?_singleton]
            show (if 1 ≤ n ∧ n - 1 < slots.length
                then slots.set (n - 1) (some r) else slots)[j]?
              = (some (some r) : Option (Option String))
            have hn1 : 1 ≤ n := by omega
            have hnj : n - 1 = j := by omega
            rw [if_pos ⟨hn1, by omega⟩, hnj]
            exact List.getElem?_set_eq_of_lt (some r) hcond.2
        · rw [slotWrites_cons_miss cy m slots.length j c rest r n hro hl hcond]
          cases hW : (slotWrites cy m slots.length j rest).getLast? with
          | some r' => rfl
          | none =>
            show (if 1 ≤ n ∧ n - 1 < slots.length
              then slots.set (n - 1) (some r) else slots)[j]? = slots[j]?
            split
            · next hc =>
              have hne : n - 1 ≠ j := by
                intro he
                exact hcond ⟨by omega, by omega⟩
              exact List.getElem?_set_ne hne
            · rfl
      | none =>
        rw [slotWrites_cons_noref cy m slots.length j c rest hro]
        exact ih slots un j
    | none =>
      rw [slotWrites_cons_unmapped cy m slots.length j c rest hl]
      cases hro : refOk cy c with
      | some r => exact ih slots (un ++ [r]) j
      | none => exact ih slots un j

/-- Helper: no writes target a slot index at or beyond the array length. -/
theorem slotWrites_ge (cy : Nat) (m : List (String × Nat)) (k j : Nat)
    (cits : List RefCitation) (h : k ≤ j) : slotWrites cy m k j cits = [] := by
  rw [slotWrites]
  apply List.filterMap_eq_nil_iff.mpr
  intro c _
  cases refOk cy c with
  | some r =>
    cases lookupNum m c.source with
    | some n =>
      have : ¬(n = j + 1 ∧ j < k) := fun hc => absurd hc.2 (by omega)
      simp [this]
    | none => rfl
  | none => rfl

/-- Helper: the slot array left by the placement loop is the spec-side
last-write array. -/
theorem placeRefs_fst_spec (cy : Nat) (m : List (String × Nat)) (cits : List RefCitation)
    (k : Nat) :
    (placeRefs cy m cits (List.replicate k none) []).1 = specSlots cy m k cits := by
  apply List.ext_getElem?
  intro j
  rw [placeRefs_fst_getElem?, List.length_replicate]
  by_cases hj : j < k
  · have hr : (specSlots cy m k cits)[j]? = some ((slotWrites cy m k j cits).getLast?) := by
      rw [specSlots]
      simp [List.getElem?_map, List.getElem?_range, hj]
    rw [hr]
    cases hW : (slotWrites cy m k j cits).getLast? with
    | some r => rfl
    | none => simp [List.getElem?_replicate, hj]
  · rw [slotWrites_ge cy m k j cits (by omega)]
    have h1 : (List.replicate k (none : Option String))[j]? = none := by
      simp [List.getElem?_replicate]
      omega
    have h2 : (specSlots cy m k cits)[j]? = none := by
      rw [specSlots]
      simp [List.getElem?_map, List.getElem?_range]
      omega
    rw [h1, h2]
    rfl

/-- C7 counterexample: with the persistent map `{X:1, Y:2}` obtained by
citing X then Y, a citations list containing only Y yields a reference list
with no entries at all (Y's slot index 1 is out of range for the single-slot
array, so the mapped entry is silently dropped rather than placed at
position 2); and a citations list of Y plus an unmapped Z renumbers Y as
`[1]` even though its assigned number is 2. -/
theorem ieee_reference_list_counterexample :
    lookupNum (citeAll initIeee ["X", "Y"]).assigned "Y" = some 2
    ∧ formatReferenceListIEEE 2026 (citeAll initIeee ["X", "Y"]).assigned
        [{ source := "Y", metadata := { title := "Sample" } }] = "References"
    ∧ formatReferenceListIEEE 2026 (citeAll initIeee ["X", "Y"]).assigned
        [{ source := "Y", metadata := { title := "Sample" } },
         { source := "Z", metadata := { title := "Extra" } }]
      = "References\n\n[1] \"Sample\" .\n\n[2] \"Extra\" ." := by
  exact ⟨rfl, rfl, rfl⟩

/-- C7 amended: the IEEE reference-list assembly places a mapped reference
into slot `n-1` of a `k`-slot array only when `1 ≤ n ≤ k`, where `k` is the
number of distinct non-empty sources with formattable references (mapped
entries with larger numbers are dropped); slots keep the last reference
written to them; every citation occurrence with an unmapped source appends
its reference after the surviving numbered entries in encounter order; and
the final output renumbers the surviving entries consecutively from 1 as
`[n] reference` lines (so an entry's printed number equals its position in
the compacted list, not necessarily its assigned number). -/
theorem ieee_reference_list_assembly (cy : Nat) (m : List (String × Nat))
    (cits : List RefCitation) :
    formatReferenceListIEEE cy m cits =
      if dedupRefs cy cits [] = [] then ""
      else
        pyStrip ("References\n\n" ++ mkNumberedLines 1
          ((specSlots cy m (dedupRefs cy cits []).length cits).filterMap id
            ++ specUnmapped cy m cits)) := by
  simp only [formatReferenceListIEEE]
  by_cases h : dedupRefs cy cits [] = []
  · rw [if_pos h, if_pos h]
  · rw [if_neg h, if_neg h]
    rw [placeRefs_fst_spec, placeRefs_snd]
    rw [List.nil_append]

end FayCite
